import Mathlib

/-!
Verification of the business-day engine in
`src/excel_date_functions/excel_date_functions.py`.

Shallow embedding conventions:

* A `CalendarDate` is modelled as an `Int`, the number of days since the
  numpy `datetime64[D]` epoch 1970-01-01 (which was a Thursday).  Hence
  day `d` falls on a Saturday iff `d % 7 = 2` and on a Sunday iff
  `d % 7 = 3`.
* The holiday calendar (`feriados()` in the source) is an external
  collaborator that yields an opaque set of dates; every engine function
  takes it as an explicit parameter `H : List Int`.
* `np.busday_count` and `np.busday_offset` (numpy's business-day
  kernels, called directly by the source) are embedded as
  `busday_count` and `busday_offset` below, with numpy's documented
  semantics: `busday_count` counts business days in the half-open
  interval `[begin, end)` and negates when the dates are reversed;
  `busday_offset` first applies the roll to reach a business day, then
  steps one business day at a time.
* Python exceptions become `Except` values; the `ValueError` raised on
  incompatible broadcast lengths is modelled as `Except.error (m, n)`
  carrying the two lengths that the source interpolates into its
  message.
* `np.array(rows, dtype = object).flatten()` on a list of rows is flat
  exactly when all rows have the same length, and otherwise is the
  one-dimensional object array of the rows themselves; `np_object_flatten`
  reproduces this with the sum type `NpVal`.
-/

/-- Saturday/Sunday test for a day count since the epoch (numpy default
weekmask `1111100`): day 0 = Thursday, so residues 2 and 3 mod 7 are
Saturday and Sunday. -/
def isWeekend (d : Int) : Bool := decide (d % 7 = 2 ∨ d % 7 = 3)

/-- Business-day test used by numpy's busday kernel: not a weekend and
not a member of the holiday list. -/
def isBusday (H : List Int) (d : Int) : Bool := !(isWeekend d) && decide (d ∉ H)

/-- Fuel-bounded forward scan for a business day: returns the first
business day at or after `d`, provided one occurs within the fuel. -/
def busday_search_fwd (H : List Int) : Nat → Int → Int
  | 0, d => d
  | n + 1, d => if isBusday H d then d else busday_search_fwd H n (d + 1)

/-- Fuel-bounded backward scan for a business day: returns the first
business day at or before `d`, provided one occurs within the fuel. -/
def busday_search_bwd (H : List Int) : Nat → Int → Int
  | 0, d => d
  | n + 1, d => if isBusday H d then d else busday_search_bwd H n (d - 1)

/-- Fuel that always suffices: any window of `7 * |H| + 7` consecutive
days contains at least `|H| + 1` days falling on a Monday, and at most
`|H|` of them can be holidays. -/
def rollFuel (H : List Int) : Nat := 7 * H.length + 7

/-- numpy roll `forward`: the first business day at or after `d`. -/
def roll_forward (H : List Int) (d : Int) : Int :=
  busday_search_fwd H (rollFuel H) d

/-- numpy roll `backward`: the first business day at or before `d`. -/
def roll_backward (H : List Int) (d : Int) : Int :=
  busday_search_bwd H (rollFuel H) d

/-- The RollPolicy enumeration of the engine: the two directions a
non-business reference date may be snapped. -/
inductive Roll where
  | forward : Roll
  | backward : Roll
deriving DecidableEq, Repr

/-- Apply a roll policy: snap `d` to the nearest business day in the
policy's direction (identity on business days). -/
def applyRoll (H : List Int) (p : Roll) (d : Int) : Int :=
  match p with
  | .forward => roll_forward H d
  | .backward => roll_backward H d

/-- One forward business-day step: the next business day strictly after `d`. -/
def step_forward (H : List Int) (d : Int) : Int := roll_forward H (d + 1)

/-- One backward business-day step: the previous business day strictly before `d`. -/
def step_backward (H : List Int) (d : Int) : Int := roll_backward H (d - 1)

/-- Embedding of `np.busday_offset(d, n, holidays = H, roll = p)`: first
snap `d` per the roll policy, then step `|n|` business days in the sign's
direction. -/
def busday_offset (H : List Int) (d : Int) (n : Int) (p : Roll) : Int :=
  let d0 := applyRoll H p d
  if 0 ≤ n then (step_forward H)^[n.toNat] d0
  else (step_backward H)^[(-n).toNat] d0

/-- Embedding of `np.busday_count(s, e, holidays = H)`: the number of
business days in the half-open interval `[s, e)`, negated when `e < s`
(count over `[e, s)`). -/
def busday_count (H : List Int) (s e : Int) : Int :=
  if s ≤ e then
    ((List.range (e - s).toNat).countP (fun i => isBusday H (s + i)) : Nat)
  else
    -(((List.range (s - e).toNat).countP (fun i => isBusday H (e + i)) : Nat) : Int)

/-- Embedding of the shared broadcast logic of `networkdays` (lines
50-57) and `work_dates` (lines 112-119): unequal lengths are fixed by
repeating a length-1 side, and two sides both longer than 1 raise the
`ValueError` whose message reports both lengths (modelled as
`Except.error (m, n)`). -/
def broadcast (A B : List Int) : Except (Nat × Nat) (List Int × List Int) :=
  if A.length ≠ B.length then
    if A.length = 1 then Except.ok (List.replicate B.length (A.headD 0), B)
    else if B.length = 1 then Except.ok (A, List.replicate A.length (B.headD 0))
    else if A.length > 1 ∧ B.length > 1 then Except.error (A.length, B.length)
    else Except.ok (A, B)
  else Except.ok (A, B)

/-- Embedding of `networkdays(data_inicial, data_final)` (lines 34-63):
broadcast the two date lists, then `np.busday_count` elementwise with
the holiday calendar. -/
def networkdays (H : List Int) (A B : List Int) : Except (Nat × Nat) (List Int) :=
  match broadcast A B with
  | Except.error e => Except.error e
  | Except.ok (A1, B1) => Except.ok (List.zipWith (busday_count H) A1 B1)

/-- Embedding of `workday(data_inicial, dias_uteis, rolagem)` (lines
65-89) after its roll token has been normalised to a `Roll` policy: the
body is exactly `np.busday_offset(d, n, holidays = feriados(), roll = p)`. -/
def workday (H : List Int) (d : Int) (n : Int) (p : Roll) : Int :=
  busday_offset H d n p

/-- ASCII lower-casing of one character, modelling Python `str.lower`
on the ASCII roll tokens the source compares against. -/
def asciiCharLower (c : Char) : Char :=
  if 65 ≤ c.toNat ∧ c.toNat ≤ 90 then Char.ofNat (c.toNat + 32) else c

/-- ASCII lower-casing of a string (Python `str.lower` on ASCII input). -/
def asciiLower (s : String) : String := String.mk (s.data.map asciiCharLower)

/-- Embedding of the roll-token translation in `workday` (lines 82-83):
`rolagem.lower() == 'posterior'` rewrites the token to `'forward'`, then
`rolagem.lower() == 'anterior'` rewrites it to `'backward'`; any other
token is passed to numpy unchanged. -/
def workday_roll_norm (r : String) : String :=
  let r1 := if asciiLower r = "posterior" then "forward" else r
  if asciiLower r1 = "anterior" then "backward" else r1

/-- The roll strings `np.busday_offset` accepts (its `roll` keyword is a
case-sensitive choice among these); every other string raises
`ValueError`. -/
def npRollTokens : List String :=
  ["raise", "nat", "forward", "following", "backward", "preceding",
   "modifiedfollowing", "modifiedpreceding"]

/-- Whether a roll token passed to `workday` is accepted (does not raise):
the token after the source's posterior/anterior translation must be one
of numpy's roll strings. -/
def workday_accepts (r : String) : Bool :=
  npRollTokens.contains (workday_roll_norm r)

/-- String-level `workday`: the source's token translation followed by
`np.busday_offset` for the directional roll modes.  The accepted numpy
modes `raise`, `nat`, `modifiedfollowing`, `modifiedpreceding` are not
given semantics here (`none`); acceptance itself is `workday_accepts`. -/
def workday_str (H : List Int) (d : Int) (n : Int) (rolagem : String) : Option Int :=
  let r := workday_roll_norm rolagem
  if r = "forward" ∨ r = "following" then some (busday_offset H d n Roll.forward)
  else if r = "backward" ∨ r = "preceding" then some (busday_offset H d n Roll.backward)
  else none

/-- Per-pair body of the `work_dates` loop (line 135):
`[workday(di, i) for i in range(int(networkdays(di, df)[0]) + 1)]`,
where `workday` is called with its default roll `'posterior'`
(= forward).  A Python `range` of a non-positive bound is empty. -/
def work_dates_pair (H : List Int) (di df : Int) : List Int :=
  (List.range (busday_count H di df + 1).toNat).map (fun i => workday H di i Roll.forward)

/-- An element of a numpy object array: either a date scalar or a whole
sub-array that failed to flatten. -/
inductive NpVal where
  | scalar : Int → NpVal
  | arr : List Int → NpVal
deriving DecidableEq, Repr

/-- Whether all rows of a matrix have equal length (the condition under
which `np.array(rows, dtype = object)` builds a 2-D array). -/
def sameLens (mat : List (List Int)) : Bool :=
  match mat with
  | [] => true
  | r :: rs => rs.all (fun x => x.length == r.length)

/-- Embedding of `np.array(rows, dtype = 'object').flatten()` (line 140):
with equal-length rows numpy builds a 2-D object array and `flatten`
yields the date scalars row by row; with ragged rows numpy builds a 1-D
object array of the row arrays and `flatten` is the identity on it. -/
def np_object_flatten (mat : List (List Int)) : List NpVal :=
  if sameLens mat then mat.flatten.map NpVal.scalar else mat.map NpVal.arr

/-- Embedding of `work_dates(data_inicial, data_final, rolagem)` (lines
91-142): broadcast, optionally snap both sides with
`np.busday_offset(·, 0, roll = rolagem)` — note: *without* the
`holidays` keyword, so this snap sees only weekends — then emit the
per-pair ranges and flatten the object matrix.  `rolagem` is the roll
policy after the source's exact-match posterior/anterior translation
(lines 105-106); `none` skips the snapping step. -/
def work_dates (H : List Int) (A B : List Int) (rolagem : Option Roll) :
    Except (Nat × Nat) (List NpVal) :=
  match broadcast A B with
  | Except.error e => Except.error e
  | Except.ok (A1, B1) =>
    let A2 := match rolagem with
      | some p => A1.map (fun d => busday_offset [] d 0 p)
      | none => A1
    let B2 := match rolagem with
      | some p => B1.map (fun d => busday_offset [] d 0 p)
      | none => B1
    Except.ok (np_object_flatten ((A2.zip B2).map (fun x => work_dates_pair H x.1 x.2)))

/-- Whether an `Except` value is a success. -/
def exceptIsOk {ε α : Type} : Except ε α → Bool
  | Except.ok _ => true
  | Except.error _ => false

/-- No date inside an object-array element is a weekend. -/
def npvalNoWeekend : NpVal → Bool
  | NpVal.scalar d => !(isWeekend d)
  | NpVal.arr l => l.all (fun d => !(isWeekend d))

/-! ## General lemmas about the business-day kernel -/

/-- Membership form of `isBusday`. -/
lemma isBusday_eq_true_iff {H : List Int} {d : Int} :
    isBusday H d = true ↔ (isWeekend d = false ∧ d ∉ H) := by
  simp [isBusday, isWeekend]

/-- A business day is never a weekend. -/
lemma not_weekend_of_isBusday {H : List Int} {d : Int}
    (h : isBusday H d = true) : isWeekend d = false :=
  (isBusday_eq_true_iff.mp h).1

/-- Days congruent to 4 mod 7 (Mondays) are not weekends. -/
lemma isWeekend_eq_false_of_mod {d : Int} (h : d % 7 = 4) : isWeekend d = false := by
  simp [isWeekend]
  omega

/-- Pigeonhole: every window of `rollFuel H` consecutive days starting at
`d` contains a business day, because it contains `H.length + 1` Mondays
and at most `H.length` of them can be holidays. -/
lemma exists_busday_fwd (H : List Int) (d : Int) :
    ∃ k : Nat, k < rollFuel H ∧ isBusday H (d + k) = true := by
  by_contra hcon
  push_neg at hcon
  have key : ∀ i : Nat, i ≤ H.length →
      (d + (((4 - d) % 7).toNat + 7 * i : Nat) : Int) ∈ H := by
    intro i hi
    have hlt : ((4 - d) % 7).toNat + 7 * i < rollFuel H := by
      unfold rollFuel
      omega
    have hb := hcon _ hlt
    have hw : isWeekend (d + (((4 - d) % 7).toNat + 7 * i : Nat) : Int) = false := by
      apply isWeekend_eq_false_of_mod
      omega
    by_contra hmem
    exact hb (isBusday_eq_true_iff.mpr ⟨hw, hmem⟩)
  have hsub : (Finset.range (H.length + 1)).image
      (fun i : Nat => (d + (((4 - d) % 7).toNat + 7 * i : Nat) : Int)) ⊆ H.toFinset := by
    intro x hx
    simp only [Finset.mem_image, Finset.mem_range] at hx
    obtain ⟨i, hi, rfl⟩ := hx
    exact List.mem_toFinset.mpr (key i (by omega))
  have hinj : Function.Injective
      (fun i : Nat => (d + (((4 - d) % 7).toNat + 7 * i : Nat) : Int)) := by
    intro a b hab
    simp only at hab
    omega
  have hcard := Finset.card_le_card hsub
  rw [Finset.card_image_of_injective _ hinj, Finset.card_range] at hcard
  have hfin := List.toFinset_card_le H
  omega

/-- Pigeonhole, backward direction: every window of `rollFuel H`
consecutive days ending at `d` contains a business day. -/
lemma exists_busday_bwd (H : List Int) (d : Int) :
    ∃ k : Nat, k < rollFuel H ∧ isBusday H (d - k) = true := by
  by_contra hcon
  push_neg at hcon
  have key : ∀ i : Nat, i ≤ H.length →
      (d - (((d - 4) % 7).toNat + 7 * i : Nat) : Int) ∈ H := by
    intro i hi
    have hlt : ((d - 4) % 7).toNat + 7 * i < rollFuel H := by
      unfold rollFuel
      omega
    have hb := hcon _ hlt
    have hw : isWeekend (d - (((d - 4) % 7).toNat + 7 * i : Nat) : Int) = false := by
      apply isWeekend_eq_false_of_mod
      omega
    by_contra hmem
    exact hb (isBusday_eq_true_iff.mpr ⟨hw, hmem⟩)
  have hsub : (Finset.range (H.length + 1)).image
      (fun i : Nat => (d - (((d - 4) % 7).toNat + 7 * i : Nat) : Int)) ⊆ H.toFinset := by
    intro x hx
    simp only [Finset.mem_image, Finset.mem_range] at hx
    obtain ⟨i, hi, rfl⟩ := hx
    exact List.mem_toFinset.mpr (key i (by omega))
  have hinj : Function.Injective
      (fun i : Nat => (d - (((d - 4) % 7).toNat + 7 * i : Nat) : Int)) := by
    intro a b hab
    simp only at hab
    omega
  have hcard := Finset.card_le_card hsub
  rw [Finset.card_image_of_injective _ hinj, Finset.card_range] at hcard
  have hfin := List.toFinset_card_le H
  omega

/-- The forward scan lands on a business day provided one exists within
the fuel. -/
lemma busday_search_fwd_spec (H : List Int) :
    ∀ (n : Nat) (d : Int), (∃ k : Nat, k < n ∧ isBusday H (d + k) = true) →
      isBusday H (busday_search_fwd H n d) = true := by
  intro n
  induction n with
  | zero =>
    intro d h
    obtain ⟨k, hk, _⟩ := h
    omega
  | succ n ih =>
    intro d h
    by_cases hd : isBusday H d = true
    · simp [busday_search_fwd, hd]
    · obtain ⟨k, hk, hb⟩ := h
      have hk0 : k ≠ 0 := by
        rintro rfl
        simp only [Nat.cast_zero, add_zero] at hb
        exact hd hb
      simp only [busday_search_fwd, hd, if_false, Bool.false_eq_true, ite_false]
      apply ih
      refine ⟨k - 1, by omega, ?_⟩
      have heq : (d + 1 + ((k - 1 : Nat) : Int)) = d + (k : Int) := by omega
      rw [heq]
      exact hb

/-- The backward scan lands on a business day provided one exists within
the fuel. -/
lemma busday_search_bwd_spec (H : List Int) :
    ∀ (n : Nat) (d : Int), (∃ k : Nat, k < n ∧ isBusday H (d - k) = true) →
      isBusday H (busday_search_bwd H n d) = true := by
  intro n
  induction n with
  | zero =>
    intro d h
    obtain ⟨k, hk, _⟩ := h
    omega
  | succ n ih =>
    intro d h
    by_cases hd : isBusday H d = true
    · simp [busday_search_bwd, hd]
    · obtain ⟨k, hk, hb⟩ := h
      have hk0 : k ≠ 0 := by
        rintro rfl
        simp only [Nat.cast_zero, sub_zero] at hb
        exact hd hb
      simp only [busday_search_bwd, hd, if_false, Bool.false_eq_true, ite_false]
      apply ih
      refine ⟨k - 1, by omega, ?_⟩
      have heq : (d - 1 - ((k - 1 : Nat) : Int)) = d - (k : Int) := by omega
      rw [heq]
      exact hb

/-- `roll_forward` always returns a business day. -/
lemma roll_forward_isBusday (H : List Int) (d : Int) :
    isBusday H (roll_forward H d) = true :=
  busday_search_fwd_spec H _ d (exists_busday_fwd H d)

/-- `roll_backward` always returns a business day. -/
lemma roll_backward_isBusday (H : List Int) (d : Int) :
    isBusday H (roll_backward H d) = true :=
  busday_search_bwd_spec H _ d (exists_busday_bwd H d)

/-- Rolling forward is the identity on business days. -/
lemma roll_forward_of_isBusday (H : List Int) (d : Int)
    (h : isBusday H d = true) : roll_forward H d = d := by
  show busday_search_fwd H (rollFuel H) d = d
  have hf : rollFuel H = (7 * H.length + 6) + 1 := by
    unfold rollFuel
    omega
  rw [hf]
  simp [busday_search_fwd, h]

/-- Rolling backward is the identity on business days. -/
lemma roll_backward_of_isBusday (H : List Int) (d : Int)
    (h : isBusday H d = true) : roll_backward H d = d := by
  show busday_search_bwd H (rollFuel H) d = d
  have hf : rollFuel H = (7 * H.length + 6) + 1 := by
    unfold rollFuel
    omega
  rw [hf]
  simp [busday_search_bwd, h]

/-- Any applied roll returns a business day. -/
lemma applyRoll_isBusday (H : List Int) (p : Roll) (d : Int) :
    isBusday H (applyRoll H p d) = true := by
  cases p
  · exact roll_forward_isBusday H d
  · exact roll_backward_isBusday H d

/-- Any applied roll is the identity on business days. -/
lemma applyRoll_of_isBusday (H : List Int) (p : Roll) (d : Int)
    (h : isBusday H d = true) : applyRoll H p d = d := by
  cases p
  · exact roll_forward_of_isBusday H d h
  · exact roll_backward_of_isBusday H d h

/-- Iterating the forward step preserves business days. -/
lemma iterate_step_forward_isBusday (H : List Int) (m : Nat) (x : Int)
    (hx : isBusday H x = true) :
    isBusday H ((step_forward H)^[m] x) = true := by
  induction m generalizing x with
  | zero => simpa using hx
  | succ m ih =>
    rw [Function.iterate_succ_apply]
    exact ih (step_forward H x) (roll_forward_isBusday H (x + 1))

/-- Iterating the backward step preserves business days. -/
lemma iterate_step_backward_isBusday (H : List Int) (m : Nat) (x : Int)
    (hx : isBusday H x = true) :
    isBusday H ((step_backward H)^[m] x) = true := by
  induction m generalizing x with
  | zero => simpa using hx
  | succ m ih =>
    rw [Function.iterate_succ_apply]
    exact ih (step_backward H x) (roll_backward_isBusday H (x - 1))

/-- The output of `busday_offset` is always a business day. -/
lemma busday_offset_isBusday (H : List Int) (d n : Int) (p : Roll) :
    isBusday H (busday_offset H d n p) = true := by
  unfold busday_offset
  by_cases h : 0 ≤ n
  · rw [if_pos h]
    exact iterate_step_forward_isBusday H n.toNat _ (applyRoll_isBusday H p d)
  · rw [if_neg h]
    exact iterate_step_backward_isBusday H (-n).toNat _ (applyRoll_isBusday H p d)

/-- An offset of 0 on a business day is the identity. -/
lemma busday_offset_zero_of_isBusday (H : List Int) (d : Int) (p : Roll)
    (h : isBusday H d = true) : busday_offset H d 0 p = d := by
  unfold busday_offset
  simp [applyRoll_of_isBusday H p d h]

/-! ## Lemmas about broadcasting and the range builder -/

/-- Two sides both longer than 1 with different lengths hit the raise
branch of the broadcast logic. -/
lemma broadcast_error {A B : List Int} (h1 : A.length > 1) (h2 : B.length > 1)
    (h3 : A.length ≠ B.length) :
    broadcast A B = Except.error (A.length, B.length) := by
  unfold broadcast
  rw [if_pos h3, if_neg (by omega), if_neg (by omega), if_pos ⟨h1, h2⟩]

/-- Equal lengths, or a length-1 side, never hit the raise branch. -/
lemma broadcast_ok {A B : List Int}
    (h : A.length = B.length ∨ A.length = 1 ∨ B.length = 1) :
    ∃ C D, broadcast A B = Except.ok (C, D) := by
  unfold broadcast
  by_cases he : A.length ≠ B.length
  · rw [if_pos he]
    by_cases hA : A.length = 1
    · rw [if_pos hA]
      exact ⟨_, _, rfl⟩
    · rw [if_neg hA]
      by_cases hB : B.length = 1
      · rw [if_pos hB]
        exact ⟨_, _, rfl⟩
      · exfalso
        omega
  · rw [if_neg he]
    exact ⟨_, _, rfl⟩

/-- On a single aligned pair, `work_dates` reduces to the per-pair list,
flattened into scalars (a one-row object matrix always flattens). -/
lemma work_dates_single (H : List Int) (di df : Int) :
    work_dates H [di] [df] none =
      Except.ok ((work_dates_pair H di df).map NpVal.scalar) := by
  have hb : broadcast [di] [df] = Except.ok ([di], [df]) := rfl
  unfold work_dates
  rw [hb]
  simp [np_object_flatten, sameLens]

/-- Elements of the flattened object matrix are scalars from some row or
whole rows. -/
lemma mem_np_object_flatten {mat : List (List Int)} {v : NpVal}
    (hv : v ∈ np_object_flatten mat) :
    (∃ x, v = NpVal.scalar x ∧ ∃ row ∈ mat, x ∈ row) ∨
    (∃ row ∈ mat, v = NpVal.arr row) := by
  unfold np_object_flatten at hv
  by_cases hs : sameLens mat = true
  · rw [if_pos hs] at hv
    obtain ⟨x, hx, rfl⟩ := List.mem_map.mp hv
    exact Or.inl ⟨x, rfl, List.mem_flatten.mp hx⟩
  · rw [if_neg hs] at hv
    obtain ⟨row, hrow, rfl⟩ := List.mem_map.mp hv
    exact Or.inr ⟨row, hrow, rfl⟩

/-- Every date emitted into a per-pair row is a business day. -/
lemma work_dates_pair_isBusday {H : List Int} {di df x : Int}
    (hx : x ∈ work_dates_pair H di df) : isBusday H x = true := by
  unfold work_dates_pair at hx
  obtain ⟨i, _, rfl⟩ := List.mem_map.mp hx
  exact busday_offset_isBusday H di i Roll.forward

/-! ## Claim theorems -/

/-- C1.  The claim states that `networkdays(d, d) = 1` for a business
day `d`.  The code evaluates to 0: `np.busday_count` counts the
half-open interval `[d, d)`, so the code contradicts its own docstring
(`equivalente ao =NETWORKDAYS() do Excel`, which is inclusive of both
endpoints).  Evaluation at the failing input: `d` = 2024-01-01 (day
19723, a Monday), empty holiday set. -/
theorem networkdays_same_day_is_zero :
    isBusday [] 19723 = true ∧ networkdays [] [19723] [19723] = Except.ok [0] :=
  ⟨by decide, rfl⟩

/-- C2, counterexample.  For the pair Monday 2024-01-01 (19723) to
Friday 2024-01-05 (19727) with no holidays, `networkdays` yields `n = 4`
but `work_dates` emits 5 dates, not the `n` dates
`[workday(start, 0), …, workday(start, n-1)]` the claim announces. -/
theorem work_dates_emits_more_than_count :
    networkdays [] [19723] [19727] = Except.ok [4] ∧
    work_dates [] [19723] [19727] none =
      Except.ok [NpVal.scalar 19723, NpVal.scalar 19724, NpVal.scalar 19725,
        NpVal.scalar 19726, NpVal.scalar 19727] ∧
    [NpVal.scalar 19723, NpVal.scalar 19724, NpVal.scalar 19725,
        NpVal.scalar 19726, NpVal.scalar 19727] ≠
      (List.range 4).map (fun i => NpVal.scalar (workday [] 19723 i Roll.forward)) :=
  ⟨rfl, rfl, by decide⟩

/-- C2, amended.  For every aligned pair, letting `n` be the value of
`networkdays` on the pair, the emitted per-pair subsequence is the
`n + 1` dates `[workday(start, 0), …, workday(start, n)]` (the loop runs
`range(int(networkdays(di, df)[0]) + 1)`). -/
theorem work_dates_emits_count_succ (H : List Int) (di df : Int) :
    work_dates H [di] [df] none =
      Except.ok ((List.range (busday_count H di df + 1).toNat).map
        (fun i => NpVal.scalar (workday H di i Roll.forward))) := by
  rw [work_dates_single]
  unfold work_dates_pair
  rw [List.map_map]
  rfl

/-- C3.  The claim states that the roll step of `work_dates` uses the
same snapping rule as `workday` with offset 0, moving a non-weekend
holiday off the holiday.  The code calls `np.busday_offset(·, 0,
roll = rolagem)` *without* the `holidays` keyword, so a weekday holiday
stays put.  At `H` = {2024-01-02}, start = 2024-01-02 (19724, a
Tuesday), end = 2024-01-05 (19727), policy backward: the claim requires
the start to snap to Monday 19723; the snap the code performs keeps
19724, and the built range is [Wed 19725, Thu 19726, Fri 19727], never
containing 19723. -/
theorem work_dates_roll_ignores_holidays :
    isBusday [19724] 19724 = false ∧
    busday_offset [] 19724 0 Roll.backward = 19724 ∧
    busday_offset [19724] 19724 0 Roll.backward = 19723 ∧
    work_dates [19724] [19724] [19727] (some Roll.backward) =
      Except.ok [NpVal.scalar 19725, NpVal.scalar 19726, NpVal.scalar 19727] :=
  ⟨by decide, rfl, rfl, rfl⟩

/-- C4.  The claim states the result of `work_dates` is always a flat
sequence of dates even when the per-pair spans differ.  With the pairs
(2024-01-01, 2024-01-01) and (2024-01-01, 2024-01-02) the rows have
lengths 1 and 2, `np.array(rows, dtype = object)` stays a 1-D array of
arrays and `.flatten()` leaves it nested — contradicting the source's
own comment that the response is a flat `np.ndarray` of all the lists. -/
theorem work_dates_ragged_stays_nested :
    work_dates [] [19723, 19723] [19723, 19724] none =
      Except.ok [NpVal.arr [19723], NpVal.arr [19723, 19724]] :=
  rfl

/-- C5.  The claim states `networkdays(d, workday(d, n, Forward)) = n + 1`
for a business day `d` and `n ≥ 0`.  The code gives `n`: the half-open
`np.busday_count` excludes the end date.  Evaluation at the failing
input `d` = 19723 (Monday 2024-01-01), `n = 1`, empty holiday set:
`workday` lands on 19724 and `networkdays` returns 1, not 2. -/
theorem networkdays_workday_roundtrip_is_n :
    isBusday [] 19723 = true ∧ workday [] 19723 1 Roll.forward = 19724 ∧
    networkdays [] [19723] [19724] = Except.ok [1] :=
  ⟨by decide, rfl, rfl⟩

/-- C6.  Two input sequences both longer than one element and of
different lengths make `networkdays` and `work_dates` fail with the
length error reporting both lengths, and no result is produced; equal
lengths or a length-1 side never produce this error. -/
theorem incompatible_length_error (H : List Int) (A B : List Int) (r : Option Roll) :
    (A.length > 1 → B.length > 1 → A.length ≠ B.length →
      networkdays H A B = Except.error (A.length, B.length) ∧
      work_dates H A B r = Except.error (A.length, B.length))
    ∧ ((A.length = B.length ∨ A.length = 1 ∨ B.length = 1) →
      exceptIsOk (networkdays H A B) = true ∧
      exceptIsOk (work_dates H A B r) = true) := by
  constructor
  · intro h1 h2 h3
    have hb := broadcast_error h1 h2 h3
    constructor
    · unfold networkdays
      rw [hb]
    · unfold work_dates
      rw [hb]
  · intro h
    obtain ⟨C, D, hb⟩ := broadcast_ok h
    constructor
    · unfold networkdays
      rw [hb]
      rfl
    · unfold work_dates
      rw [hb]
      cases r <;> rfl

/-- C6, witness: a (2, 3) pair errors with both lengths reported, a
(1, 3) pair succeeds. -/
theorem incompatible_length_error_witness :
    networkdays [] [19723, 19724] [19723, 19724, 19725] = Except.error (2, 3) ∧
    exceptIsOk (networkdays [] [19723] [19723, 19724, 19725]) = true :=
  ⟨((incompatible_length_error [] [19723, 19724] [19723, 19724, 19725] none).1
      (by decide) (by decide) (by decide)).1,
   ((incompatible_length_error [] [19723] [19723, 19724, 19725] none).2
      (Or.inr (Or.inl (by decide)))).1⟩

/-- A token lower-casing to `posterior` is rewritten to `forward`. -/
lemma workday_roll_norm_posterior {r : String} (h : asciiLower r = "posterior") :
    workday_roll_norm r = "forward" := by
  simp only [workday_roll_norm]
  rw [if_pos h]
  rw [if_neg (by decide)]

/-- A token lower-casing to `anterior` is rewritten to `backward`. -/
lemma workday_roll_norm_anterior {r : String} (h : asciiLower r = "anterior") :
    workday_roll_norm r = "backward" := by
  have hne : ¬ asciiLower r = "posterior" := by
    rw [h]
    decide
  simp only [workday_roll_norm]
  rw [if_neg hne, if_pos h]

/-- Any other token passes through the translation unchanged. -/
lemma workday_roll_norm_other {r : String} (h1 : ¬ asciiLower r = "posterior")
    (h2 : ¬ asciiLower r = "anterior") : workday_roll_norm r = r := by
  simp only [workday_roll_norm]
  rw [if_neg h1, if_neg h2]

/-- C7, counterexample.  The claim says `forward` and `backward` are
accepted case-insensitively and every token outside the four spellings
fails.  In the code only the Portuguese synonyms are lower-cased:
`FORWARD` and `Backward` reach numpy unchanged and raise, while numpy's
own token `following` is accepted. -/
theorem workday_roll_tokens_case_and_extras :
    workday_accepts "FORWARD" = false ∧ workday_accepts "Backward" = false ∧
    workday_accepts "following" = true := by
  decide

/-- C7, amended.  A roll token is accepted iff it lower-cases to
`posterior` or `anterior` (which are translated to `forward` and
`backward`), or is literally one of numpy's case-sensitive roll strings;
the accepted spellings of one policy produce identical dates because
they normalise to the same numpy roll. -/
theorem workday_roll_token_contract :
    (∀ r : String, workday_accepts r = true ↔
      (asciiLower r = "posterior" ∨ asciiLower r = "anterior" ∨
        npRollTokens.contains r = true))
    ∧ (∀ (H : List Int) (d n : Int) (r : String), asciiLower r = "posterior" →
        workday_str H d n r = some (busday_offset H d n Roll.forward))
    ∧ (∀ (H : List Int) (d n : Int) (r : String), asciiLower r = "anterior" →
        workday_str H d n r = some (busday_offset H d n Roll.backward)) := by
  refine ⟨?_, ?_, ?_⟩
  · intro r
    by_cases h1 : asciiLower r = "posterior"
    · constructor
      · intro _
        exact Or.inl h1
      · intro _
        unfold workday_accepts
        rw [workday_roll_norm_posterior h1]
        decide
    · by_cases h2 : asciiLower r = "anterior"
      · constructor
        · intro _
          exact Or.inr (Or.inl h2)
        · intro _
          unfold workday_accepts
          rw [workday_roll_norm_anterior h2]
          decide
      · unfold workday_accepts
        rw [workday_roll_norm_other h1 h2]
        constructor
        · intro h
          exact Or.inr (Or.inr h)
        · rintro (h | h | h)
          · exact absurd h h1
          · exact absurd h h2
          · exact h
  · intro H d n r h
    unfold workday_str
    rw [workday_roll_norm_posterior h]
    rw [if_pos (Or.inl rfl)]
  · intro H d n r h
    unfold workday_str
    rw [workday_roll_norm_anterior h]
    rw [if_neg (by decide), if_pos (Or.inl rfl)]

/-- C7, witness: the upper-case Portuguese synonym `POSTERIOR` is
accepted and behaves as the forward policy. -/
theorem workday_roll_token_contract_witness :
    workday_accepts "POSTERIOR" = true ∧
    workday_str [] 19723 0 "POSTERIOR" = some (busday_offset [] 19723 0 Roll.forward) :=
  ⟨(workday_roll_token_contract.1 "POSTERIOR").mpr (Or.inl (by decide)),
   workday_roll_token_contract.2.1 [] 19723 0 "POSTERIOR" (by decide)⟩

/-- C8.  When the end date precedes the start date, `networkdays` on the
pair is the negation of `networkdays` on the swapped pair, because
`np.busday_count` negates the half-open count of the swapped interval. -/
theorem networkdays_reverse_negates (H : List Int) (s e : Int) (h : e < s) :
    networkdays H [s] [e] = Except.ok [-(busday_count H e s)] ∧
    networkdays H [e] [s] = Except.ok [busday_count H e s] := by
  have hc : busday_count H s e = -(busday_count H e s) := by
    unfold busday_count
    rw [if_neg (by omega), if_pos (by omega)]
  have hb1 : broadcast [s] [e] = Except.ok ([s], [e]) := rfl
  have hb2 : broadcast [e] [s] = Except.ok ([e], [s]) := rfl
  constructor
  · unfold networkdays
    rw [hb1]
    simp [hc]
  · unfold networkdays
    rw [hb2]
    rfl

/-- C8, witness: Friday 2024-01-05 (19727) back to Monday 2024-01-01
(19723) with no holidays. -/
theorem networkdays_reverse_negates_witness :
    networkdays [] [19727] [19723] = Except.ok [-(busday_count [] 19723 19727)] ∧
    networkdays [] [19723] [19727] = Except.ok [busday_count [] 19723 19727] :=
  networkdays_reverse_negates [] 19727 19723 (by decide)

/-- Any successful `work_dates` output is the flattened object matrix of
per-pair rows for some list of aligned pairs. -/
lemma work_dates_ok_shape (H : List Int) (A B : List Int) (r : Option Roll)
    (out : List NpVal) (hok : work_dates H A B r = Except.ok out) :
    ∃ L : List (Int × Int),
      out = np_object_flatten (L.map (fun x => work_dates_pair H x.1 x.2)) := by
  unfold work_dates at hok
  cases hb : broadcast A B with
  | error err =>
    rw [hb] at hok
    cases hok
  | ok AB =>
    obtain ⟨A1, B1⟩ := AB
    rw [hb] at hok
    cases r with
    | none =>
      simp only [Except.ok.injEq] at hok
      exact ⟨A1.zip B1, hok.symm⟩
    | some p =>
      simp only [Except.ok.injEq] at hok
      exact ⟨_, hok.symm⟩

/-- C9.  Re-snapping any `workday` output with offset 0 and the same
policy is a no-op (the output is already a business day), and no date
returned by `workday` or emitted by `work_dates` is a Saturday or
Sunday, whatever the holiday set contains. -/
theorem workday_idempotent_no_weekend :
    (∀ (H : List Int) (d n : Int) (p : Roll),
      workday H (workday H d n p) 0 p = workday H d n p)
    ∧ (∀ (H : List Int) (d n : Int) (p : Roll),
      isWeekend (workday H d n p) = false)
    ∧ (∀ (H A B : List Int) (r : Option Roll) (out : List NpVal),
      work_dates H A B r = Except.ok out → ∀ v ∈ out, npvalNoWeekend v = true) := by
  refine ⟨?_, ?_, ?_⟩
  · intro H d n p
    exact busday_offset_zero_of_isBusday H _ p (busday_offset_isBusday H d n p)
  · intro H d n p
    exact not_weekend_of_isBusday (busday_offset_isBusday H d n p)
  · intro H A B r out hok v hv
    obtain ⟨L, rfl⟩ := work_dates_ok_shape H A B r out hok
    rcases mem_np_object_flatten hv with ⟨x, rfl, row, hr, hx⟩ | ⟨row, hr, rfl⟩
    · obtain ⟨⟨di, df⟩, _, rfl⟩ := List.mem_map.mp hr
      simp [npvalNoWeekend, not_weekend_of_isBusday (work_dates_pair_isBusday hx)]
    · obtain ⟨⟨di, df⟩, _, rfl⟩ := List.mem_map.mp hr
      simp only [npvalNoWeekend, List.all_eq_true]
      intro y hy
      simp [not_weekend_of_isBusday (work_dates_pair_isBusday hy)]

/-- C9, witness: idempotence at a concrete offset and a concrete
weekend-free output element of `work_dates`. -/
theorem workday_idempotent_no_weekend_witness :
    workday [] (workday [] 19723 2 Roll.forward) 0 Roll.forward =
      workday [] 19723 2 Roll.forward ∧
    npvalNoWeekend (NpVal.scalar 19723) = true :=
  ⟨workday_idempotent_no_weekend.1 [] 19723 2 Roll.forward,
   workday_idempotent_no_weekend.2.2 [] [19723] [19723] none
     [NpVal.scalar 19723] rfl (NpVal.scalar 19723) (by decide)⟩

/-- C10.  A pair whose `networkdays` count `n` satisfies `n + 1 ≤ 0`
contributes the empty subsequence: the loop `range(int(n) + 1)` is empty,
so `work_dates` chooses empty output, never a reversed sequence. -/
theorem work_dates_reverse_pair_empty (H : List Int) (di df : Int)
    (h : busday_count H di df + 1 ≤ 0) :
    work_dates_pair H di df = [] ∧ work_dates H [di] [df] none = Except.ok [] := by
  have hp : work_dates_pair H di df = [] := by
    unfold work_dates_pair
    have hz : (busday_count H di df + 1).toNat = 0 := by omega
    rw [hz]
    rfl
  refine ⟨hp, ?_⟩
  rw [work_dates_single, hp]
  rfl

/-- C10, witness: Friday 2024-01-05 (19727) down to Monday 2024-01-01
(19723), a count of −4, yields the empty output. -/
theorem work_dates_reverse_pair_empty_witness :
    work_dates_pair [] 19727 19723 = [] ∧
    work_dates [] [19727] [19723] none = Except.ok [] :=
  work_dates_reverse_pair_empty [] 19727 19723 (by decide)
